import Mathlib

/-!
Shallow embedding of the Seoul free-shuttle-bus extraction and validation
engine (src/agents/nlp_extractor.py, src/agents/validator.py, src/config.py),
with theorems settling the frozen claims about its specification.

Strings are modelled as Lean strings (lists of unicode scalar chars, matching
Python str code points).  The Python regular expressions used by the extractor
are embedded via a small backtracking engine whose candidate order reproduces
the leftmost, greedy, ordered-alternation semantics of the re module.
Numbers are modelled as rationals.
-/

set_option maxRecDepth 4096

/-! ## Character classes (Python re character classes restricted to the
characters that actually occur in this pipeline's data) -/

def isSpc (c : Char) : Bool :=
  c == ' ' || c == '\t' || c == '\n' || c == '\r' || c == '\x0b' || c == '\x0c'

def isHangul (c : Char) : Bool :=
  '가' ≤ c && c ≤ '힣'

def isWordChar (c : Char) : Bool :=
  c.isAlphanum || c == '_' || isHangul c

/-! ## List-of-char string utilities -/

def containsSub (n : List Char) : List Char → Bool
  | [] => n.isEmpty
  | c :: t => if n.isPrefixOf (c :: t) then true else containsSub n t

def containsStr (n h : String) : Bool := containsSub n.data h.data

def trimChars (l : List Char) : List Char :=
  ((l.dropWhile isSpc).reverse.dropWhile isSpc).reverse

def strTrim (s : String) : String := ⟨trimChars s.data⟩

def splitOnPred (p : Char → Bool) : List Char → List (List Char)
  | [] => [[]]
  | c :: cs =>
    if p c then [] :: splitOnPred p cs
    else
      match splitOnPred p cs with
      | [] => [[c]]
      | x :: xs => (c :: x) :: xs

def collapseWsAux : Bool → List Char → List Char
  | _, [] => []
  | prevWs, c :: cs =>
    if isSpc c then
      if prevWs then collapseWsAux true cs
      else ' ' :: collapseWsAux true cs
    else c :: collapseWsAux false cs

def zfill2 (l : List Char) : List Char :=
  if 2 ≤ l.length then l else List.replicate (2 - l.length) '0' ++ l

/-! ## A small regex engine.

matchRE returns the list of possible match continuations (remaining suffix and
captured groups), ordered by the backtracking preference of Python's re module:
greedy repetition tries longest first, alternation tries alternatives left to
right, an optional element tries to match before skipping.  searchAux scans for
the leftmost position admitting a match and commits to the first candidate,
exactly as re.search / re.findall do. -/

abbrev Caps := List (Nat × List Char)

inductive RE where
  | cls (p : Char → Bool)
  | lit (s : List Char)
  | seq (a b : RE)
  | alt (a b : RE)
  | rep (p : Char → Bool) (lo : Nat) (hi : Option Nat)
  | opt (r : RE)
  | grp (i : Nat) (r : RE)

def repCands (p : Char → Bool) (lo : Nat) (hi : Option Nat) (cs : List Char) :
    List (List Char) :=
  let run := (cs.takeWhile p).length
  let m := match hi with
    | some h => min run h
    | none => run
  if m < lo then []
  else (List.range (m - lo + 1)).map (fun j => cs.drop (m - j))

def matchRE : RE → List Char → List (List Char × Caps)
  | .cls _, [] => []
  | .cls p, c :: cs => if p c then [(cs, [])] else []
  | .lit s, cs => if s.isPrefixOf cs then [(cs.drop s.length, [])] else []
  | .seq a b, cs =>
    (matchRE a cs).flatMap (fun rc =>
      (matchRE b rc.1).map (fun rc2 => (rc2.1, rc.2 ++ rc2.2)))
  | .alt a b, cs => matchRE a cs ++ matchRE b cs
  | .rep p lo hi, cs => (repCands p lo hi cs).map (fun r => (r, []))
  | .opt r, cs => matchRE r cs ++ [(cs, [])]
  | .grp i r, cs =>
    (matchRE r cs).map (fun rc => (rc.1, (i, cs.take (cs.length - rc.1.length)) :: rc.2))

def searchAux (r : RE) : List Char → Option (List Char × List Char × Caps)
  | [] =>
    match matchRE r [] with
    | rc :: _ => some ([], rc.1, rc.2)
    | [] => none
  | c :: t =>
    match matchRE r (c :: t) with
    | rc :: _ => some (c :: t, rc.1, rc.2)
    | [] => searchAux r t

def capGet (caps : Caps) (i : Nat) : Option (List Char) :=
  (caps.find? (fun pc => pc.1 == i)).map (fun pc => pc.2)

def findallAux (r : RE) : Nat → List Char → List (List Char)
  | 0, _ => []
  | fuel + 1, cs =>
    match searchAux r cs with
    | none => []
    | some (st, rest, caps) =>
      let consumed := st.length - rest.length
      let g1 :=
        match capGet caps 1 with
        | some g => g
        | none => st.take consumed
      if consumed == 0 then [g1]
      else g1 :: findallAux r fuel rest

def findall (r : RE) (cs : List Char) : List (List Char) :=
  findallAux r (cs.length + 1) cs

/-! ## Pattern constants of StopExtractor (src/agents/nlp_extractor.py) -/

def seqList (rs : List RE) : RE := rs.foldr RE.seq (.lit [])

def failRE : RE := .cls (fun _ => false)

def altList (rs : List RE) : RE := rs.foldr RE.alt failRE

def strLit (s : String) : RE := .lit s.data

def wsRE : RE := .rep isSpc 0 none

def stopRE : RE :=
  .grp 1 (seqList [
    .rep isHangul 2 (some 15),
    altList [strLit "역", strLit "정류장", strLit "사거리", strLit "삼거리",
      strLit "오거리", strLit "주민센터", strLit "구청", strLit "시장",
      strLit "공원", strLit "학교", strLit "병원", strLit "아파트",
      strLit "마을", strLit "입구", strLit "앞",
      RE.seq (strLit "건너") (.opt (strLit "편"))],
    wsRE, .rep Char.isDigit 0 none, .opt (strLit "번"), wsRE, .opt (strLit "출구")])

def timeRE : RE :=
  seqList [
    .grp 1 (.rep Char.isDigit 1 (some 2)), wsRE,
    .cls (fun c => c == ':' || c == '시'), wsRE,
    .opt (.grp 2 (.rep Char.isDigit 2 (some 2))), wsRE,
    .cls (fun c => c == '~' || c == '-'), wsRE,
    .grp 3 (.rep Char.isDigit 1 (some 2)), wsRE,
    .cls (fun c => c == ':' || c == '시'), wsRE,
    .opt (.grp 4 (.rep Char.isDigit 2 (some 2)))]

def intervalRE : RE :=
  seqList [
    .grp 1 (.rep Char.isDigit 1 none), wsRE,
    .opt (.cls (fun c => c == '~' || c == '-')), wsRE,
    .opt (.grp 2 (.rep Char.isDigit 1 none)), wsRE,
    strLit "분", wsRE,
    .opt (RE.alt (strLit "간격") (strLit "배차"))]

/-! ## Configuration data (src/config.py) -/

def stop_keywords : List String :=
  ["역", "정류장", "사거리", "삼거리", "오거리",
   "주민센터", "구청", "시장", "공원", "학교",
   "병원", "아파트", "마을", "입구", "앞", "건너"]

def exclude_keywords : List String :=
  ["운행", "시간", "배차", "간격", "분", "시",
   "노선", "안내", "문의", "연락처"]

def seoulDistricts : List (String × List String) :=
  [("종로구", ["종로", "광화문", "경복궁"]),
   ("중구", ["중구", "명동", "을지로"]),
   ("용산구", ["용산", "이태원", "한남"]),
   ("성동구", ["성동", "왕십리", "성수"]),
   ("광진구", ["광진", "건대", "구의"]),
   ("동대문구", ["동대문", "청량리", "회기"]),
   ("중랑구", ["중랑", "망우", "면목"]),
   ("성북구", ["성북", "길음", "돈암"]),
   ("강북구", ["강북", "수유", "미아"]),
   ("도봉구", ["도봉", "창동", "쌍문"]),
   ("노원구", ["노원", "상계", "중계"]),
   ("은평구", ["은평", "연신내", "불광"]),
   ("서대문구", ["서대문", "신촌", "홍제"]),
   ("마포구", ["마포", "홍대", "합정"]),
   ("양천구", ["양천", "목동", "신정"]),
   ("강서구", ["강서", "화곡", "발산"]),
   ("구로구", ["구로", "신도림", "개봉"]),
   ("금천구", ["금천", "가산", "독산"]),
   ("영등포구", ["영등포", "여의도", "당산"]),
   ("동작구", ["동작", "사당", "노량진"]),
   ("관악구", ["관악", "신림", "봉천"]),
   ("서초구", ["서초", "강남", "양재"]),
   ("강남구", ["강남", "역삼", "삼성"]),
   ("송파구", ["송파", "잠실", "가락"]),
   ("강동구", ["강동", "천호", "길동"])]

def districtNames : List String := seoulDistricts.map (fun d => d.1)

def districtKeywords (d : String) : List String :=
  match seoulDistricts.find? (fun p => p.1 = d) with
  | some p => p.2
  | none => []


def splitLines (s : String) : List String :=
  (splitOnPred (fun c => c == '\n') s.data).map (fun l => ⟨l⟩)

def joinNl : List String → List Char
  | [] => []
  | [x] => x.data
  | x :: xs => x.data ++ '\n' :: joinNl xs

def memStr (s : String) : List String → Bool
  | [] => false
  | x :: xs => if s = x then true else memStr s xs

/-! ## StopExtractor (src/agents/nlp_extractor.py) -/

def isAllowedChar (c : Char) : Bool :=
  isWordChar c || isSpc c || isHangul c || c.isDigit ||
    c == ':' || c == '~' || c == '-' || c == '→' || c == '↔'

/-- clean_text: collapse whitespace runs to a single space, replace characters
outside the allowed set with a space, then strip. -/
def clean_text (s : String) : String :=
  ⟨trimChars ((collapseWsAux false s.data).map
      (fun c => if isAllowedChar c then c else ' '))⟩

def is_valid_stop (s : String) : Bool :=
  let cs := s.data
  if cs.length < 2 then false
  else if exclude_keywords.any (fun ex => containsSub ex.data cs) then false
  else if cs.all Char.isDigit then false
  else if cs.length < 3 || 30 < cs.length then false
  else stop_keywords.any (fun kw => containsSub kw.data cs)

def normalizeStop (s : String) : String :=
  ⟨s.data.filter (fun c => !(isSpc c || c.isDigit))⟩

def dedupAux : List String → List String → List String
  | _, [] => []
  | seen, x :: xs =>
    let n := normalizeStop x
    if memStr n seen then dedupAux seen xs
    else x :: dedupAux (n :: seen) xs

def deduplicate_stops (stops : List String) : List String := dedupAux [] stops

def isDelim (c : Char) : Bool :=
  c == ',' || isSpc c || c == '→' || c == '↔' || c == '-'

/-- One delimiter-separated part of a line in the keyword-fallback pass:
append the stripped part when it contains the keyword, passes is_valid_stop,
and is not already present. -/
def partStep (kw : String) (stops : List String) (part : List Char) : List String :=
  let p := strTrim ⟨part⟩
  if containsSub kw.data p.data && is_valid_stop p && !(memStr p stops)
  then stops ++ [p] else stops

def kwStep (cl : String) (stops : List String) (kw : String) : List String :=
  if containsSub kw.data cl.data then
    (splitOnPred isDelim cl.data).foldl (partStep kw) stops
  else stops

def lineStep (stops : List String) (line : String) : List String :=
  let cl := clean_text line
  if exclude_keywords.any (fun ex => containsSub ex.data cl.data) then stops
  else stop_keywords.foldl (kwStep cl) stops

/-- The keyword-fallback pass of extract_stops: for each line (cleaned) that
contains no exclude keyword, every stop keyword occurring in the line lets
each delimiter-separated part containing that keyword and passing
is_valid_stop be appended, unless already present. -/
def keywordPass (lines : List String) (init : List String) : List String :=
  lines.foldl lineStep init

def extract_stops (text : String) : List String :=
  let cleaned := clean_text text
  let pass1 := ((findall stopRE cleaned.data).map (fun m => strTrim ⟨m⟩)).filter
    is_valid_stop
  deduplicate_stops (keywordPass (splitLines text) pass1)

def extract_time_info (text : String) : Option String :=
  match searchAux timeRE text.data with
  | none => none
  | some (_, _, caps) =>
    match capGet caps 1, capGet caps 3 with
    | some g1, some g3 =>
      let g2 := (capGet caps 2).getD ['0', '0']
      let g4 := (capGet caps 4).getD ['0', '0']
      some ⟨zfill2 g1 ++ [':'] ++ g2 ++ ['~'] ++ zfill2 g3 ++ [':'] ++ g4⟩
    | _, _ => none

def extract_interval (text : String) : Option String :=
  match searchAux intervalRE text.data with
  | none => none
  | some (_, _, caps) =>
    match capGet caps 1 with
    | none => none
    | some g1 =>
      match capGet caps 2 with
      | some g2 => some ⟨g1 ++ ['~'] ++ g2 ++ ['분']⟩
      | none => some ⟨g1 ++ ['분']⟩

/-! ## DistrictSegmenter: split_by_district (src/agents/nlp_extractor.py) -/

structure SegState where
  cur : Option String
  curLines : List String
  blocks : List (String × String)
deriving Repr, DecidableEq

def upsert (blocks : List (String × String)) (k v : String) :
    List (String × String) :=
  match blocks with
  | [] => [(k, v)]
  | (k0, v0) :: rest =>
    if k0 = k then (k, v) :: rest else (k0, v0) :: upsert rest k v

def flushSeg (st : SegState) : List (String × String) :=
  match st.cur with
  | some d =>
    if st.curLines.isEmpty then st.blocks
    else upsert st.blocks d ⟨joinNl st.curLines⟩
  | none => st.blocks

def lineDistrict (line : String) : Option String :=
  districtNames.find? (fun d => containsSub d.data line.data)

def segStep (st : SegState) (line : String) : SegState :=
  match lineDistrict line with
  | some d => { cur := some d, curLines := [line], blocks := flushSeg st }
  | none =>
    match st.cur with
    | some _ => { st with curLines := st.curLines ++ [line] }
    | none => st

def split_by_district (text : String) : List (String × String) :=
  flushSeg ((splitLines text).foldl segStep ⟨none, [], []⟩)

/-! ## JSONValidator data model (src/agents/validator.py)

Stops, routes and districts arrive as loose JSON dictionaries.  A coordinate
field is either absent-or-null (Python dict.get returns None for both), a
number, or some non-numeric JSON value; for a non-numeric value only its
Python truthiness can matter downstream.  For the hours/interval/name fields
of a route the pipeline distinguishes an absent key from a key present with
null (dict.get with a default does), so those are modelled with JField. -/

inductive JValue where
  | num (q : ℚ)
  | junk (truthy : Bool)
deriving DecidableEq, Repr

inductive JField (α : Type) where
  | absent
  | null
  | val (a : α)
deriving DecidableEq, Repr

def JField.get {α : Type} : JField α → Option α
  | .val a => some a
  | _ => none

/-- Python dict.get(key, default): the default applies only when the key is
absent; a key present with value None yields None. -/
def JField.getD (f : JField String) (d : String) : Option String :=
  match f with
  | .absent => some d
  | .null => none
  | .val s => some s

/-- Python display of the value of dict.get(key, default) in an f-string. -/
def JField.disp (f : JField String) (d : String) : String :=
  match f with
  | .absent => d
  | .null => "None"
  | .val s => s

def truthyOpt : Option String → Bool
  | none => false
  | some s => !s.isEmpty

def truthyJV : JValue → Bool
  | .num q => decide (q ≠ 0)
  | .junk t => t

structure Stop where
  name : Option String
  lat : Option JValue
  lng : Option JValue
deriving DecidableEq, Repr

structure Route where
  name : JField String
  hours : JField String
  interval : JField String
  stops : List Stop
deriving DecidableEq, Repr

structure DistrictEntry where
  district : String
  routes : List Route
deriving DecidableEq, Repr

structure Doc where
  districts : List DistrictEntry
deriving DecidableEq, Repr

/-! ## Validator -/

def minLatQ : ℚ := mkRat 3742 100
def maxLatQ : ℚ := mkRat 3772 100
def minLngQ : ℚ := mkRat 12676 100
def maxLngQ : ℚ := mkRat 12718 100

def validate_coordinates (lat lng : JValue) : Bool × String :=
  match lat, lng with
  | .num a, .num b =>
    if a < minLatQ ∨ maxLatQ < a then (false, "위도 범위 초과: " ++ toString a)
    else if b < minLngQ ∨ maxLngQ < b then (false, "경도 범위 초과: " ++ toString b)
    else (true, "OK")
  | _, _ => (false, "좌표가 숫자가 아님")

def validate_stop (stop : Stop) (route_name : String) : List String :=
  let e1 := if truthyOpt stop.name then [] else ["[" ++ route_name ++ "] 정류장 이름 없음"]
  match stop.lat, stop.lng with
  | some la, some ln =>
    let r := validate_coordinates la ln
    e1 ++ (if r.1 then []
      else ["[" ++ route_name ++ "] '" ++ stop.name.getD "None" ++ "' " ++ r.2])
  | _, _ => e1 ++ ["[" ++ route_name ++ "] '" ++ stop.name.getD "?" ++ "' 좌표 없음"]

def validate_route (route : Route) (district : String) : List String × List String :=
  let rname := route.name.disp "이름 없음"
  let errs0 := if truthyOpt route.name.get then [] else ["[" ++ district ++ "] 노선 이름 없음"]
  let warns0 := if route.stops.length < 2 then ["[" ++ rname ++ "] 정류장이 2개 미만"] else []
  let errs := errs0 ++ route.stops.flatMap (fun s => validate_stop s rname)
  let warns1 := warns0 ++ (if truthyOpt route.hours.get then [] else ["[" ++ rname ++ "] 운행시간 정보 없음"])
  let warns := warns1 ++ (if truthyOpt route.interval.get then [] else ["[" ++ rname ++ "] 배차간격 정보 없음"])
  (errs, warns)

def validate_district (dd : DistrictEntry) : List String × List String :=
  if dd.district.isEmpty then (["자치구 이름 없음"], [])
  else
    let w0 := if memStr dd.district districtNames then []
      else ["'" ++ dd.district ++ "'는 서울시 자치구가 아님"]
    let w1 := w0 ++ (if dd.routes.isEmpty then ["[" ++ dd.district ++ "] 노선 정보 없음"] else [])
    dd.routes.foldl (fun acc r =>
      let er := validate_route r dd.district
      (acc.1 ++ er.1, acc.2 ++ er.2)) ([], w1)

structure VReport where
  valid : Bool
  errors : List String
  warnings : List String
  error_count : Nat
  warning_count : Nat
deriving DecidableEq, Repr

def validate_data (doc : Doc) : VReport :=
  if doc.districts.isEmpty then
    { valid := false, errors := ["자치구 데이터 없음"], warnings := [],
      error_count := 1, warning_count := 0 }
  else
    let ew := doc.districts.foldl (fun acc dd =>
      let r := validate_district dd
      (acc.1 ++ r.1, acc.2 ++ r.2)) ([], [])
    { valid := ew.1.isEmpty, errors := ew.1, warnings := ew.2,
      error_count := ew.1.length, warning_count := ew.2.length }

/-! ## AutoRepair: fix_common_issues -/

/-- The per-stop keep condition of fix_common_issues: both coordinate values
truthy (Python: if lat and lng) and accepted by validate_coordinates. -/
def keepStopCode (s : Stop) : Bool :=
  match s.lat, s.lng with
  | some la, some ln => truthyJV la && truthyJV ln && (validate_coordinates la ln).1
  | _, _ => false

def fix_common_issues (doc : Doc) : Doc :=
  { districts := doc.districts.filterMap (fun dd =>
      let rs := dd.routes.filterMap (fun r =>
        let vs := r.stops.filter keepStopCode
        if 2 ≤ vs.length then some { r with stops := vs } else none)
      if rs.isEmpty then none else some { dd with routes := rs }) }

/-! ## SchemaEmitter: generate_final_json -/

def sentinelNoInfo : String := "정보 없음"

structure FinalRoute where
  name : Option String
  hours : Option String
  interval : Option String
  stops : List Stop
deriving DecidableEq, Repr

structure FinalDistrict where
  district : String
  routes : List FinalRoute
deriving DecidableEq, Repr

structure FinalDoc where
  source : String
  schema_version : String
  districts : List FinalDistrict
deriving DecidableEq, Repr

/-- The body of the route loop in generate_final_json: every field fetched via
dict.get with a default, stops passed through unchanged. -/
def emitRoute (district : String) (r : Route) : FinalRoute :=
  { name := r.name.getD (district ++ " 셔틀"),
    hours := r.hours.getD sentinelNoInfo,
    interval := r.interval.getD sentinelNoInfo,
    stops := r.stops }

def insertD (x : FinalDistrict) : List FinalDistrict → List FinalDistrict
  | [] => [x]
  | y :: ys => if x.district < y.district then x :: y :: ys else y :: insertD x ys

/-- Stable ascending sort by district name (Python list.sort with a key). -/
def sortD (l : List FinalDistrict) : List FinalDistrict :=
  l.foldl (fun acc x => insertD x acc) []

def generate_final_json (doc : Doc) : FinalDoc :=
  { source := "자동 수집",
    schema_version := "1.0.0",
    districts := sortD (doc.districts.filterMap (fun dd =>
      let rs := dd.routes.map (emitRoute dd.district)
      if rs.isEmpty then none else some { district := dd.district, routes := rs })) }

/-! ## QualityScorer: calculate_quality_score -/

/-- Round half to even (Python round on a value exactly representable). -/
def rhe (x : ℚ) : ℤ :=
  if x - ⌊x⌋ < 1 / 2 then ⌊x⌋
  else if 1 / 2 < x - ⌊x⌋ then ⌊x⌋ + 1
  else if ⌊x⌋ % 2 = 0 then ⌊x⌋ else ⌊x⌋ + 1

def round1 (x : ℚ) : ℚ := (rhe (x * 10) : ℚ) / 10

def hasHoursB (r : FinalRoute) : Bool :=
  match r.hours with
  | some s => !s.isEmpty && s ≠ sentinelNoInfo
  | none => false

def hasIntervalB (r : FinalRoute) : Bool :=
  match r.interval with
  | some s => !s.isEmpty && s ≠ sentinelNoInfo
  | none => false

structure QScore where
  district_coverage : ℚ
  info_completeness : ℚ
  total_districts : Nat
  total_routes : Nat
  total_stops : Nat
  avg_stops_per_route : ℚ
  overall_score : ℚ
deriving DecidableEq, Repr

def calculate_quality_score (f : FinalDoc) : QScore :=
  let total_districts := f.districts.length
  let total_routes := (f.districts.map (fun d => d.routes.length)).sum
  let total_stops :=
    (f.districts.map (fun d => (d.routes.map (fun r => r.stops.length)).sum)).sum
  let coverage : ℚ := min ((total_districts : ℚ) / 25 * 100) 100
  let has_hours := (f.districts.flatMap (fun d => d.routes)).countP hasHoursB
  let has_interval := (f.districts.flatMap (fun d => d.routes)).countP hasIntervalB
  let completeness : ℚ :=
    if total_routes = 0 then 0
    else ((has_hours : ℚ) + (has_interval : ℚ)) / ((total_routes : ℚ) * 2) * 100
  let avg : ℚ := if total_routes = 0 then 0 else (total_stops : ℚ) / (total_routes : ℚ)
  { district_coverage := round1 coverage,
    info_completeness := round1 completeness,
    total_districts := total_districts,
    total_routes := total_routes,
    total_stops := total_stops,
    avg_stops_per_route := round1 avg,
    overall_score := round1 ((coverage + completeness) / 2) }

/-! ## Pipeline data path of JSONValidator.run: validate, repair once when
invalid, emit from whichever document resulted. -/

def pipelineRun (doc : Doc) : FinalDoc :=
  let v := validate_data doc
  generate_final_json (if v.valid then doc else fix_common_issues doc)

/-! ## Claim-side (specification-worded) definitions, for comparison with the
source-derived functions above. -/

/-- Claim wording for C4/C10: coordinates are present, numeric, and inside the
Seoul bounding box. -/
def specKeepStop (s : Stop) : Bool :=
  match s.lat, s.lng with
  | some (.num a), some (.num b) =>
    decide (minLatQ ≤ a ∧ a ≤ maxLatQ ∧ minLngQ ≤ b ∧ b ≤ maxLngQ)
  | _, _ => false

/-- Claim wording for C4: retain exactly the in-bounds stops, drop routes left
with fewer than two stops, drop districts left with no routes. -/
def specRepair (doc : Doc) : Doc :=
  { districts := doc.districts.filterMap (fun dd =>
      let rs := dd.routes.filterMap (fun r =>
        let vs := r.stops.filter specKeepStop
        if 2 ≤ vs.length then some { r with stops := vs } else none)
      if rs.isEmpty then none else some { dd with routes := rs }) }

/-- Claim wording for C6: keep only the first occurrence of each normalized
key, preserving the original text and order. -/
def firstOcc : List String → List String
  | [] => []
  | x :: xs =>
    x :: firstOcc (xs.filter (fun y => normalizeStop y ≠ normalizeStop x))
termination_by l => l.length
decreasing_by
  simp only [List.length_cons]
  exact Nat.lt_succ_of_le (List.length_filter_le _ _)

/-- Claim wording for C7: number of distinct district names in the document. -/
def distinctDistrictCount (f : FinalDoc) : Nat :=
  ((f.districts.map (fun d => d.district)).dedup).length

/-! ## Scenario constants -/

def scenarioA : String := "영등포역 1번출구\n여의도역\n운행 09:00~18:00 30분 간격"

/-- C1: the claim as stated is false on the code: besides hours, the stop
list differs (the keyword-fallback pass also emits the bare "영등포역", whose
normalized key differs from that of "영등포역 1번출구") and the interval
regex first matches at the "00" of "18:00", yielding "00~30분". -/
theorem C1_scenarioA_counterexample :
    ¬(extract_stops scenarioA = ["영등포역 1번출구", "여의도역"] ∧
      extract_time_info scenarioA = some "09:00~18:00" ∧
      extract_interval scenarioA = some "30분") := by
  intro h
  exact absurd h.1 (by decide)

/-- C1 (amended): on scenario A the extractor returns the three stops
["영등포역 1번출구", "여의도역", "영등포역"] (all with distinct normalized keys),
hours "09:00~18:00", and interval "00~30분". -/
theorem C1_scenarioA_amended :
    extract_stops scenarioA = ["영등포역 1번출구", "여의도역", "영등포역"] ∧
    extract_time_info scenarioA = some "09:00~18:00" ∧
    extract_interval scenarioA = some "00~30분" ∧
    (extract_stops scenarioA).Pairwise
      (fun a b => normalizeStop a ≠ normalizeStop b) := by
  refine ⟨by decide, by decide, by decide, ?_⟩
  have h : extract_stops scenarioA = ["영등포역 1번출구", "여의도역", "영등포역"] := by decide
  rw [h]
  decide

/-- C2: counterexample. "여의도" is an alias keyword of "영등포구", yet a text
whose only line is "여의도" opens no buffer at all (the segmenter returns the
empty mapping), while the canonical name "영등포구" does open one.  So alias
keywords do not open accumulation buffers the way canonical names do. -/
theorem C2_alias_counterexample :
    "여의도" ∈ districtKeywords "영등포구" ∧
    containsStr "여의도" "여의도" = true ∧
    split_by_district "여의도" = [] ∧
    split_by_district "영등포구" = [("영등포구", "영등포구")] := by
  refine ⟨by decide, by decide, by decide, by decide⟩

/-- C2 (amended): in split_by_district only canonical district names matter:
a line containing a canonical name (first in configuration order) opens that
district's buffer, and a line containing no canonical name — in particular a
line containing only alias keywords — leaves the open-buffer state and the
flushed blocks unchanged. -/
theorem C2_segmenter_canonical_only (st : SegState) (line : String) :
    (∀ d, lineDistrict line = some d →
      containsStr d line = true ∧ d ∈ districtNames ∧
      (segStep st line).cur = some d ∧ (segStep st line).curLines = [line]) ∧
    (lineDistrict line = none →
      (∀ d ∈ districtNames, containsStr d line = false) ∧
      (segStep st line).cur = st.cur ∧ (segStep st line).blocks = st.blocks) := by
  obtain ⟨cur, curLines, blocks⟩ := st
  constructor
  · intro d hd
    have hd2 := hd
    simp only [lineDistrict] at hd2
    refine ⟨?_, List.mem_of_find?_eq_some hd2, ?_, ?_⟩
    · simpa [containsStr] using List.find?_some hd2
    · simp [segStep, hd]
    · simp [segStep, hd]
  · intro hnone
    have hnone2 := hnone
    simp only [lineDistrict] at hnone2
    refine ⟨?_, ?_, ?_⟩
    · intro d hd
      have := List.find?_eq_none.mp hnone2 d hd
      simpa [containsStr] using this
    · cases cur <;> simp [segStep, hnone]
    · cases cur <;> simp [segStep, hnone, flushSeg]

/-- Witness for C2_segmenter_canonical_only at a concrete alias-only line and
a concrete canonical-name line. -/
theorem C2_segmenter_canonical_only_witness :
    (segStep ⟨some "강남구", ["강남구"], []⟩ "여의도").cur = some "강남구" ∧
    (segStep ⟨none, [], []⟩ "영등포구 셔틀").cur = some "영등포구" := by
  constructor
  · exact ((C2_segmenter_canonical_only ⟨some "강남구", ["강남구"], []⟩ "여의도").2
      (by decide)).2.1
  · exact ((C2_segmenter_canonical_only ⟨none, [], []⟩ "영등포구 셔틀").1
      "영등포구" (by decide)).2.2.1

/-! ## Deduplication lemmas (C6) -/

lemma memStr_iff (s : String) (l : List String) : memStr s l = true ↔ s ∈ l := by
  induction l with
  | nil => simp [memStr]
  | cons x xs ih =>
    by_cases h : s = x <;> simp [memStr, h, ih]

lemma dedupAux_congr (xs : List String) :
    ∀ seen seen', (∀ n, memStr n seen = memStr n seen') →
    dedupAux seen xs = dedupAux seen' xs := by
  induction xs with
  | nil => intro seen seen' _; rfl
  | cons x xs ih =>
    intro seen seen' h
    cases hm : memStr (normalizeStop x) seen' with
    | true => simp only [dedupAux, h (normalizeStop x), hm, if_pos]; exact ih _ _ h
    | false =>
      simp only [dedupAux, h (normalizeStop x), hm, Bool.false_eq_true, if_false]
      congr 1
      refine ih _ _ ?_
      intro n
      by_cases hn : n = normalizeStop x <;> simp [memStr, hn, h n]

lemma dedupAux_cons_seen (xs : List String) :
    ∀ (seen : List String) (n : String),
    dedupAux (n :: seen) xs =
      dedupAux seen (xs.filter (fun y => normalizeStop y ≠ n)) := by
  induction xs with
  | nil => intro seen n; rfl
  | cons x xs ih =>
    intro seen n
    by_cases hx : normalizeStop x = n
    · rw [List.filter_cons_of_neg (by simp [hx])]
      simp only [dedupAux, memStr, hx, if_pos, if_true]
      exact ih seen n
    · rw [List.filter_cons_of_pos (by simp [hx])]
      simp only [dedupAux, memStr, if_neg hx]
      cases hm : memStr (normalizeStop x) seen with
      | true => exact ih seen n
      | false =>
        simp only [Bool.false_eq_true, if_false]
        congr 1
        have hswap : dedupAux (normalizeStop x :: n :: seen) xs =
            dedupAux (n :: normalizeStop x :: seen) xs := by
          refine dedupAux_congr _ _ _ ?_
          intro m
          by_cases h1 : m = normalizeStop x <;> by_cases h2 : m = n <;>
            simp [memStr, h1, h2]
        rw [hswap, ih (normalizeStop x :: seen) n]

lemma dedup_eq_firstOcc (xs : List String) :
    deduplicate_stops xs = firstOcc xs := by
  rw [deduplicate_stops]
  suffices h : ∀ (n : Nat) (ys : List String), ys.length ≤ n →
      dedupAux [] ys = firstOcc ys from h xs.length xs le_rfl
  intro n
  induction n with
  | zero =>
    intro ys h
    have : ys = [] := List.eq_nil_of_length_eq_zero (Nat.le_zero.mp h)
    subst this
    simp [dedupAux, firstOcc]
  | succ n ih =>
    intro ys h
    cases ys with
    | nil => simp [dedupAux, firstOcc]
    | cons x xs =>
      rw [firstOcc]
      simp only [dedupAux, memStr, Bool.false_eq_true, if_false]
      rw [dedupAux_cons_seen xs [] (normalizeStop x)]
      congr 1
      refine ih _ (le_trans (List.length_filter_le _ _) ?_)
      exact Nat.succ_le_succ_iff.mp (by simpa using h)

lemma mem_dedupAux (x : String) (xs : List String) :
    ∀ seen, x ∈ dedupAux seen xs → x ∈ xs := by
  induction xs with
  | nil => intro seen h; simp [dedupAux] at h
  | cons y ys ih =>
    intro seen h
    simp only [dedupAux] at h
    cases hm : memStr (normalizeStop y) seen with
    | true =>
      rw [hm, if_pos rfl] at h
      exact List.mem_cons_of_mem _ (ih _ h)
    | false =>
      rw [hm] at h
      simp only [Bool.false_eq_true, if_false] at h
      rcases List.mem_cons.mp h with h1 | h1
      · exact h1 ▸ List.mem_cons_self _ _
      · exact List.mem_cons_of_mem _ (ih _ h1)

lemma dedupAux_keys_fresh (xs : List String) :
    ∀ seen x, x ∈ dedupAux seen xs → memStr (normalizeStop x) seen = false := by
  induction xs with
  | nil => intro seen x h; simp [dedupAux] at h
  | cons y ys ih =>
    intro seen x h
    simp only [dedupAux] at h
    cases hm : memStr (normalizeStop y) seen with
    | true =>
      rw [hm, if_pos rfl] at h
      exact ih _ _ h
    | false =>
      rw [hm] at h
      simp only [Bool.false_eq_true, if_false] at h
      rcases List.mem_cons.mp h with h1 | h1
      · subst h1; exact hm
      · have h2 := ih _ _ h1
        simp only [memStr] at h2
        by_cases he : normalizeStop x = normalizeStop y
        · rw [if_pos he] at h2
          exact absurd h2 (by simp)
        · rwa [if_neg he] at h2

lemma dedupAux_pairwise (xs : List String) :
    ∀ seen, (dedupAux seen xs).Pairwise
      (fun a b => normalizeStop a ≠ normalizeStop b) := by
  induction xs with
  | nil => intro seen; simp [dedupAux]
  | cons y ys ih =>
    intro seen
    simp only [dedupAux]
    cases hm : memStr (normalizeStop y) seen with
    | true => rw [if_pos rfl]; exact ih _
    | false =>
      simp only [Bool.false_eq_true, if_false]
      refine List.Pairwise.cons ?_ (ih _)
      intro b hb
      have hf := dedupAux_keys_fresh _ _ _ hb
      simp only [memStr] at hf
      intro he
      rw [if_pos he.symm] at hf
      exact absurd hf (by simp)

lemma dedupAux_of_fresh (xs : List String) :
    ∀ seen, xs.Pairwise (fun a b => normalizeStop a ≠ normalizeStop b) →
    (∀ x ∈ xs, memStr (normalizeStop x) seen = false) →
    dedupAux seen xs = xs := by
  induction xs with
  | nil => intro seen _ _; rfl
  | cons y ys ih =>
    intro seen hp hf
    simp only [dedupAux]
    rw [hf y (List.mem_cons_self _ _)]
    simp only [Bool.false_eq_true, if_false]
    congr 1
    refine ih _ (List.Pairwise.of_cons hp) ?_
    intro x hx
    simp only [memStr]
    rw [if_neg ?_]
    · exact hf x (List.mem_cons_of_mem _ hx)
    · intro he
      exact (List.pairwise_cons.mp hp).1 x hx he.symm

/-- C6: deduplication equals the specification-side first-occurrence filter
(keep the first occurrence of each normalized key, preserving the original
non-normalized text and original order), and it is idempotent. -/
theorem C6_dedup_firstOcc_and_idempotent :
    (∀ xs : List String, deduplicate_stops xs = firstOcc xs) ∧
    (∀ xs : List String,
      deduplicate_stops (deduplicate_stops xs) = deduplicate_stops xs) := by
  constructor
  · exact dedup_eq_firstOcc
  · intro xs
    have hp := dedupAux_pairwise xs []
    exact dedupAux_of_fresh _ _ hp (fun x _ => by simp [memStr])

/-! ## Stop-candidate invariant (C8) -/

lemma containsSub_subset (n : List Char) :
    ∀ h, containsSub n h = true → ∀ c ∈ n, c ∈ h := by
  intro h
  induction h with
  | nil =>
    intro hc c hcn
    simp only [containsSub, List.isEmpty_iff] at hc
    subst hc
    simp at hcn
  | cons a t ih =>
    intro hc c hcn
    simp only [containsSub] at hc
    by_cases hp : n.isPrefixOf (a :: t) = true
    · have hpre : n <+: (a :: t) := List.isPrefixOf_iff_prefix.mp hp
      exact hpre.subset hcn
    · rw [if_neg hp] at hc
      exact List.mem_cons_of_mem _ (ih hc c hcn)

lemma foldl_mem_invariant {α : Type} (P : String → Prop)
    (l : List α) (step : List String → α → List String)
    (hstep : ∀ acc a x, x ∈ step acc a → x ∈ acc ∨ P x) :
    ∀ acc x, x ∈ l.foldl step acc → x ∈ acc ∨ P x := by
  induction l with
  | nil => intro acc x hx; exact Or.inl hx
  | cons a l ih =>
    intro acc x hx
    rcases ih (step acc a) x hx with h1 | h1
    · exact hstep acc a x h1
    · exact Or.inr h1

lemma mem_partStep (kw : String) (stops : List String) (part : List Char)
    (x : String) (hx : x ∈ partStep kw stops part) :
    x ∈ stops ∨ is_valid_stop x = true := by
  simp only [partStep] at hx
  split at hx
  · rename_i hc
    rcases List.mem_append.mp hx with h1 | h1
    · exact Or.inl h1
    · right
      have hx2 : x = strTrim ⟨part⟩ := by simpa using h1
      subst hx2
      have := (Bool.and_eq_true_iff.mp hc).1
      exact (Bool.and_eq_true_iff.mp this).2
  · exact Or.inl hx

lemma mem_kwStep (cl : String) (stops : List String) (kw : String)
    (x : String) (hx : x ∈ kwStep cl stops kw) :
    x ∈ stops ∨ is_valid_stop x = true := by
  simp only [kwStep] at hx
  split at hx
  · exact foldl_mem_invariant _ _ _ (fun a b c h => mem_partStep kw a b c h)
      stops x hx
  · exact Or.inl hx

lemma mem_lineStep (stops : List String) (line : String)
    (x : String) (hx : x ∈ lineStep stops line) :
    x ∈ stops ∨ is_valid_stop x = true := by
  simp only [lineStep] at hx
  split at hx
  · exact Or.inl hx
  · exact foldl_mem_invariant _ _ _
      (fun a b c h => mem_kwStep (clean_text line) a b c h) stops x hx

lemma mem_keywordPass (lines : List String) (init : List String) (x : String) :
    x ∈ keywordPass lines init → x ∈ init ∨ is_valid_stop x = true := by
  intro h
  simp only [keywordPass] at h
  exact foldl_mem_invariant _ lines _ (fun a b c hh => mem_lineStep a b c hh)
    init x h

lemma mem_extract_stops_valid (text s : String) :
    s ∈ extract_stops text → is_valid_stop s = true := by
  intro hs
  simp only [extract_stops, deduplicate_stops] at hs
  have h1 := mem_dedupAux _ _ _ hs
  rcases mem_keywordPass _ _ _ h1 with h2 | h2
  · exact List.of_mem_filter h2
  · exact h2

/-- The validity invariant of the specification for emitted stop candidates. -/
def stopInvariant (s : String) : Prop :=
  normalizeStop s ≠ "" ∧
  3 ≤ s.length ∧ s.length ≤ 30 ∧
  (∃ kw ∈ stop_keywords, containsStr kw s = true) ∧
  (∀ ex ∈ exclude_keywords, containsStr ex s = false)

lemma keywords_have_solid_char :
    ∀ kw ∈ stop_keywords, ∃ c ∈ kw.data, (isSpc c || c.isDigit) = false := by
  decide

lemma valid_implies_invariant (s : String) (hv : is_valid_stop s = true) :
    stopInvariant s := by
  simp only [is_valid_stop] at hv
  split at hv
  · exact absurd hv (by simp)
  · split at hv
    · exact absurd hv (by simp)
    · split at hv
      · exact absurd hv (by simp)
      · split at hv
        · exact absurd hv (by simp)
        · rename_i h1 hex h3 hlen
          rcases List.any_eq_true.mp hv with ⟨kw, hkw, hcs⟩
          have hlen2 : ¬(s.data.length < 3 ∨ 30 < s.data.length) := by
            simpa using hlen
          push_neg at hlen2
          refine ⟨?_, hlen2.1, hlen2.2, ⟨kw, hkw, hcs⟩, ?_⟩
          · rcases keywords_have_solid_char kw hkw with ⟨c, hc, hcsolid⟩
            have hcmem : c ∈ s.data := containsSub_subset _ _ hcs c hc
            intro hnz
            have : c ∈ (normalizeStop s).data := by
              simp only [normalizeStop]
              refine List.mem_filter.mpr ⟨hcmem, ?_⟩
              simp [hcsolid]
            rw [hnz] at this
            simp at this
          · intro ex hexmem
            by_contra hc
            have : exclude_keywords.any (fun e => containsSub e.data s.data) = true :=
              List.any_eq_true.mpr ⟨ex, hexmem, by
                simp only [containsStr] at hc
                simpa using hc⟩
            exact hex this

/-- C8: every stop candidate emitted by extract_stops satisfies the validity
invariant: non-empty normalized key, text length between 3 and 30, at least
one stop-suffix keyword, and no exclude keyword. -/
theorem C8_emitted_stop_invariant (text s : String)
    (hs : s ∈ extract_stops text) : stopInvariant s :=
  valid_implies_invariant s (mem_extract_stops_valid text s hs)

/-- Witness for C8 at a concrete input. -/
theorem C8_emitted_stop_invariant_witness :
    "강남역" ∈ extract_stops "강남역" ∧ stopInvariant "강남역" :=
  ⟨by decide, C8_emitted_stop_invariant "강남역" "강남역" (by decide)⟩

/-! ## Validator error taxonomy (C3) -/

/-- Claim-side condition for a stop error: empty name, absent coordinates,
non-numeric coordinates, or a coordinate outside the Seoul bounding box. -/
def specStopErrorB (s : Stop) : Bool :=
  !truthyOpt s.name ||
  (match s.lat, s.lng with
   | some (.num a), some (.num b) =>
     decide (a < minLatQ ∨ maxLatQ < a ∨ b < minLngQ ∨ maxLngQ < b)
   | some _, some _ => true
   | _, _ => true)

lemma validate_stop_ne_nil_iff (s : Stop) (rname : String) :
    validate_stop s rname ≠ [] ↔ specStopErrorB s = true := by
  obtain ⟨nm, lat, lng⟩ := s
  simp only [validate_stop, specStopErrorB, validate_coordinates]
  cases lat with
  | none => cases hn : truthyOpt nm <;> simp [hn]
  | some la =>
    cases lng with
    | none => cases la <;> (cases hn : truthyOpt nm <;> simp [hn])
    | some ln =>
      cases la with
      | junk t => cases hn : truthyOpt nm <;> simp [hn]
      | num a =>
        cases ln with
        | junk t => cases hn : truthyOpt nm <;> simp [hn]
        | num b =>
          by_cases h1 : a < minLatQ ∨ maxLatQ < a
          · have h1b : a < minLatQ ∨ maxLatQ < a ∨ b < minLngQ ∨ maxLngQ < b := by
              tauto
            cases hn : truthyOpt nm <;> simp [hn, h1, h1b]
          · by_cases h2 : b < minLngQ ∨ maxLngQ < b
            · have h2b : a < minLatQ ∨ maxLatQ < a ∨ b < minLngQ ∨ maxLngQ < b := by
                tauto
              cases hn : truthyOpt nm <;> simp [hn, h1, h2, h2b]
            · have h1a := not_or.mp h1
              have h2a := not_or.mp h2
              cases hn : truthyOpt nm <;>
                simp [hn, h1, h2, h1a.1, h1a.2, h2a.1, h2a.2]

/-- C3: a stop produces a validation error exactly when its name is empty,
its coordinates are absent or non-numeric, or a present coordinate is out of
bounds; missing hours, missing interval and a stop count below 2 only add
warnings (the route error list is the route-name check plus the per-stop
errors, independent of those three conditions); and a document is valid
exactly when its error list is empty. -/
theorem C3_error_warning_taxonomy :
    (∀ (s : Stop) (rname : String),
      validate_stop s rname ≠ [] ↔ specStopErrorB s = true) ∧
    (∀ (r : Route) (district : String),
      (validate_route r district).1 =
        (if truthyOpt r.name.get then []
         else ["[" ++ district ++ "] 노선 이름 없음"]) ++
        r.stops.flatMap (fun s => validate_stop s (r.name.disp "이름 없음"))) ∧
    (∀ (r : Route) (district : String), truthyOpt r.hours.get = false →
      ("[" ++ r.name.disp "이름 없음" ++ "] 운행시간 정보 없음") ∈
        (validate_route r district).2) ∧
    (∀ (r : Route) (district : String), truthyOpt r.interval.get = false →
      ("[" ++ r.name.disp "이름 없음" ++ "] 배차간격 정보 없음") ∈
        (validate_route r district).2) ∧
    (∀ (r : Route) (district : String), r.stops.length < 2 →
      ("[" ++ r.name.disp "이름 없음" ++ "] 정류장이 2개 미만") ∈
        (validate_route r district).2) ∧
    (∀ doc : Doc,
      (validate_data doc).valid = true ↔ (validate_data doc).errors = []) := by
  refine ⟨validate_stop_ne_nil_iff, ?_, ?_, ?_, ?_, ?_⟩
  · intro r district
    rfl
  · intro r district h
    cases h2 : truthyOpt r.interval.get <;>
      by_cases h3 : r.stops.length < 2 <;>
        simp [validate_route, h, h2, h3]
  · intro r district h
    cases h2 : truthyOpt r.hours.get <;>
      by_cases h3 : r.stops.length < 2 <;>
        simp [validate_route, h, h2, h3]
  · intro r district h
    cases h2 : truthyOpt r.hours.get <;>
      cases h3 : truthyOpt r.interval.get <;>
        simp [validate_route, h, h2, h3]
  · intro doc
    by_cases hd : doc.districts.isEmpty
    · simp [validate_data, hd]
    · simp only [validate_data, hd, Bool.false_eq_true, if_false]
      exact List.isEmpty_iff

/-- Witness for C3 at concrete inputs: a stop with absent coordinates errors,
an in-bounds stop does not, and a route lacking hours gets a warning. -/
theorem C3_error_warning_taxonomy_witness :
    validate_stop ⟨some "정류장X", none, none⟩ "노선A" ≠ [] ∧
    ¬(validate_stop ⟨some "정류장Y", some (.num (mkRat 375 10)),
        some (.num 127)⟩ "노선A" ≠ []) ∧
    ("[노선A] 운행시간 정보 없음" ∈
      (validate_route ⟨.val "노선A", .null, .val "30분", []⟩ "강남구").2) := by
  refine ⟨?_, ?_, ?_⟩
  · exact (C3_error_warning_taxonomy.1 ⟨some "정류장X", none, none⟩ "노선A").mpr
      (by decide)
  · intro h
    have := (C3_error_warning_taxonomy.1 _ "노선A").mp h
    exact absurd this (by decide)
  · exact C3_error_warning_taxonomy.2.2.1
      ⟨.val "노선A", .null, .val "30분", []⟩ "강남구" (by decide)

/-! ## AutoRepair (C4, C5) -/

lemma keepStop_agree (s : Stop) : keepStopCode s = specKeepStop s := by
  obtain ⟨nm, lat, lng⟩ := s
  cases lat with
  | none => rfl
  | some la =>
    cases lng with
    | none => cases la <;> rfl
    | some ln =>
      cases la with
      | junk t => cases ln <;> simp [keepStopCode, specKeepStop, validate_coordinates]
      | num a =>
        cases ln with
        | junk t => simp [keepStopCode, specKeepStop, validate_coordinates, truthyJV]
        | num b =>
          simp only [keepStopCode, specKeepStop, validate_coordinates, truthyJV]
          by_cases h1 : a < minLatQ ∨ maxLatQ < a
          · have : ¬(minLatQ ≤ a ∧ a ≤ maxLatQ ∧ minLngQ ≤ b ∧ b ≤ maxLngQ) := by
              rcases h1 with h | h
              · exact fun hc => absurd hc.1 (not_le.mpr h)
              · exact fun hc => absurd hc.2.1 (not_le.mpr h)
            simp [h1, this]
          · by_cases h2 : b < minLngQ ∨ maxLngQ < b
            · have : ¬(minLatQ ≤ a ∧ a ≤ maxLatQ ∧ minLngQ ≤ b ∧ b ≤ maxLngQ) := by
                rcases h2 with h | h
                · exact fun hc => absurd hc.2.2.1 (not_le.mpr h)
                · exact fun hc => absurd hc.2.2.2 (not_le.mpr h)
              simp [h1, h2, this]
            · have h1a := not_or.mp h1
              have h2a := not_or.mp h2
              have hb : minLatQ ≤ a ∧ a ≤ maxLatQ ∧ minLngQ ≤ b ∧ b ≤ maxLngQ :=
                ⟨not_lt.mp h1a.1, not_lt.mp h1a.2, not_lt.mp h2a.1, not_lt.mp h2a.2⟩
              have ha0 : a ≠ 0 := by
                intro h0
                have : (0 : ℚ) < minLatQ := by decide
                rw [h0] at hb
                exact absurd hb.1 (not_le.mpr this)
              have hb0 : b ≠ 0 := by
                intro h0
                have : (0 : ℚ) < minLngQ := by decide
                rw [h0] at hb
                exact absurd hb.2.2.1 (not_le.mpr this)
              simp [h1, h2, hb, ha0, hb0]

/-- Scenario B data: a route with two in-bounds stops and one stop resolved
far outside Seoul. -/
def stopGood1 : Stop := ⟨some "정류장1", some (.num (mkRat 375 10)), some (.num 127)⟩

def stopGood2 : Stop := ⟨some "정류장2", some (.num (mkRat 376 10)), some (.num (mkRat 1271 10))⟩

def stopBusan : Stop := ⟨some "부산정류장", some (.num (mkRat 3510 100)), some (.num (mkRat 12904 100))⟩

def scenarioBdoc3 : Doc :=
  ⟨[⟨"강남구", [⟨.val "노선B", .absent, .absent, [stopGood1, stopGood2, stopBusan]⟩]⟩]⟩

def scenarioBdoc2 : Doc :=
  ⟨[⟨"강남구", [⟨.val "노선B", .absent, .absent, [stopGood1, stopBusan]⟩]⟩]⟩

/-- C4: auto-repair retains in each route exactly the stops whose coordinates
are present, numeric and inside the Seoul bounding box, drops routes left
with fewer than 2 stops and districts left with no routes; concretely the
stop at (35.10, 129.04) is removed, and its route (and district) is dropped
when fewer than 2 stops remain. -/
theorem C4_autorepair_filter :
    (∀ doc : Doc, fix_common_issues doc = specRepair doc) ∧
    specKeepStop stopBusan = false ∧
    fix_common_issues scenarioBdoc3 =
      ⟨[⟨"강남구", [⟨.val "노선B", .absent, .absent, [stopGood1, stopGood2]⟩]⟩]⟩ ∧
    fix_common_issues scenarioBdoc2 = ⟨[]⟩ := by
  refine ⟨?_, by decide, by decide, by decide⟩
  intro doc
  have h : keepStopCode = specKeepStop := funext keepStop_agree
  simp only [fix_common_issues, specRepair, h]

lemma filterMap_eq_self {α : Type} (l : List α) (f : α → Option α)
    (h : ∀ x ∈ l, f x = some x) : l.filterMap f = l := by
  induction l with
  | nil => rfl
  | cons x xs ih =>
    rw [List.filterMap_cons, h x (List.mem_cons_self _ _)]
    rw [ih (fun y hy => h y (List.mem_cons_of_mem _ hy))]

/-- C5: auto-repair is idempotent. -/
theorem C5_autorepair_idempotent (doc : Doc) :
    fix_common_issues (fix_common_issues doc) = fix_common_issues doc := by
  simp only [fix_common_issues]
  congr 1
  refine filterMap_eq_self _ _ ?_
  intro dd' hdd
  rcases List.mem_filterMap.mp hdd with ⟨dd, _, hF⟩
  by_cases hrs : (dd.routes.filterMap (fun r =>
      if 2 ≤ (r.stops.filter keepStopCode).length
      then some { r with stops := r.stops.filter keepStopCode } else none)).isEmpty
  · rw [if_pos hrs] at hF
    exact absurd hF (by simp)
  · rw [if_neg hrs] at hF
    have hdd' : dd' = { dd with routes := dd.routes.filterMap (fun r =>
        if 2 ≤ (r.stops.filter keepStopCode).length
        then some { r with stops := r.stops.filter keepStopCode } else none) } := by
      exact (Option.some_injective _ hF).symm
    have hroutes : ∀ r' ∈ dd'.routes,
        (if 2 ≤ (r'.stops.filter keepStopCode).length
         then some { r' with stops := r'.stops.filter keepStopCode } else none) =
        some r' := by
      intro r' hr'
      rw [hdd'] at hr'
      simp only at hr'
      rcases List.mem_filterMap.mp hr' with ⟨r, _, hG⟩
      by_cases hlen : 2 ≤ (r.stops.filter keepStopCode).length
      · rw [if_pos hlen] at hG
        have hr'eq : r' = { r with stops := r.stops.filter keepStopCode } :=
          (Option.some_injective _ hG).symm
        have hstops : r'.stops.filter keepStopCode = r'.stops := by
          rw [hr'eq]
          simp only
          exact List.filter_eq_self.mpr (fun a ha => List.of_mem_filter ha)
        rw [hstops]
        have hlen2 : 2 ≤ r'.stops.length := by
          rw [hr'eq]
          simpa using hlen
        rw [if_pos hlen2]
      · rw [if_neg hlen] at hG
        exact absurd hG (by simp)
    have hfm : dd'.routes.filterMap (fun r =>
        if 2 ≤ (r.stops.filter keepStopCode).length
        then some { r with stops := r.stops.filter keepStopCode } else none) =
        dd'.routes := filterMap_eq_self _ _ hroutes
    rw [hfm]
    have hne : dd'.routes.isEmpty = false := by
      rw [hdd']
      simpa using hrs
    rw [if_neg (by simp [hne])]

/-! ## Quality score (C7) -/

lemma rhe_intCast (n : ℤ) : rhe (n : ℚ) = n := by
  rw [rhe]
  rw [if_pos]
  · exact Int.floor_intCast n
  · rw [Int.floor_intCast]
    norm_num

lemma rhe_nonneg (x : ℚ) (hx : 0 ≤ x) : 0 ≤ rhe x := by
  have hfl : 0 ≤ ⌊x⌋ := Int.floor_nonneg.mpr hx
  rw [rhe]
  split
  · exact hfl
  · split
    · omega
    · split
      · exact hfl
      · omega

lemma rhe_le (x : ℚ) (n : ℤ) (hx : x ≤ n) : rhe x ≤ n := by
  have hfl : ⌊x⌋ ≤ n := by
    have h := Int.floor_le_floor hx
    rwa [Int.floor_intCast] at h
  have hsucc : ¬(x - ⌊x⌋ < 1 / 2) → ⌊x⌋ + 1 ≤ n := by
    intro h
    have hpos : (0 : ℚ) < x - ⌊x⌋ := by
      have : (1 : ℚ) / 2 ≤ x - ⌊x⌋ := not_lt.mp h
      linarith
    have hlt : (⌊x⌋ : ℚ) < (n : ℚ) := by
      have := Int.floor_le x
      linarith
    exact Int.add_one_le_iff.mpr (by exact_mod_cast hlt)
  rw [rhe]
  split
  · exact hfl
  · rename_i h1
    split
    · exact hsucc h1
    · split
      · exact hfl
      · exact hsucc h1

lemma round1_nonneg (x : ℚ) (hx : 0 ≤ x) : 0 ≤ round1 x := by
  rw [round1]
  have h := rhe_nonneg (x * 10) (by positivity)
  positivity

lemma round1_le_100 (x : ℚ) (hx : x ≤ 100) : round1 x ≤ 100 := by
  rw [round1]
  have h : rhe (x * 10) ≤ (1000 : ℤ) := by
    refine rhe_le _ _ ?_
    push_cast
    linarith
  rw [div_le_iff₀ (by norm_num : (0:ℚ) < 10)]
  calc ((rhe (x * 10) : ℤ) : ℚ) ≤ ((1000 : ℤ) : ℚ) := by exact_mod_cast h
    _ = 100 * 10 := by norm_num

/-- Claim-side coverage formula over the number of district entries. -/
def specCoverage (f : FinalDoc) : ℚ :=
  min ((f.districts.length : ℚ) / 25 * 100) 100

def totalRoutesOf (f : FinalDoc) : ℕ :=
  (f.districts.map (fun d => d.routes.length)).sum

def hoursCount (f : FinalDoc) : ℕ :=
  (f.districts.flatMap (fun d => d.routes)).countP hasHoursB

def intervalCount (f : FinalDoc) : ℕ :=
  (f.districts.flatMap (fun d => d.routes)).countP hasIntervalB

/-- Claim-side completeness formula. -/
def specCompleteness (f : FinalDoc) : ℚ :=
  if totalRoutesOf f = 0 then 0
  else ((hoursCount f : ℚ) + (intervalCount f : ℚ)) /
    (2 * (totalRoutesOf f : ℚ)) * 100

def routeC7 : FinalRoute := ⟨some "노선C", some "09:00~18:00", some "30분", []⟩

/-- A document with two district entries carrying the same district name. -/
def docC7 : FinalDoc :=
  ⟨"자동 수집", "1.0.0", [⟨"강남구", [routeC7]⟩, ⟨"강남구", [routeC7]⟩]⟩

lemma round1_ofInt (n : ℤ) (x : ℚ) (hx : x * 10 = (n : ℚ)) :
    round1 x = (n : ℚ) / 10 := by
  rw [round1, hx, rhe_intCast]

/-- C7: counterexample. The scorer counts district entries, not distinct
district names: on a document with two entries named "강남구" the code computes
coverage 8.0, while the claimed formula over the distinct district count
gives 4.0. -/
theorem C7_coverage_counterexample :
    (calculate_quality_score docC7).district_coverage = 8 ∧
    distinctDistrictCount docC7 = 1 ∧
    round1 (min ((distinctDistrictCount docC7 : ℚ) / 25 * 100) 100) = 4 ∧
    (8 : ℚ) ≠ 4 := by
  have hdedup : distinctDistrictCount docC7 = 1 := by
    simp [distinctDistrictCount, docC7, List.dedup_cons_of_mem, List.mem_singleton]
  refine ⟨?_, hdedup, ?_, by norm_num⟩
  · have hlen : docC7.districts.length = 2 := rfl
    simp only [calculate_quality_score, hlen]
    push_cast
    have hm : min ((2 : ℚ) / 25 * 100) 100 = 8 := by
      rw [min_eq_left (by norm_num)]
      norm_num
    rw [hm]
    have h8 := round1_ofInt 80 8 (by norm_num)
    rw [h8]
    norm_num
  · rw [hdedup]
    have hm : min ((1 : ℚ) / 25 * 100) 100 = 4 := by
      rw [min_eq_left (by norm_num)]
      norm_num
    rw [Nat.cast_one, hm]
    have h4 := round1_ofInt 40 4 (by norm_num)
    rw [h4]
    norm_num

lemma specCoverage_bounds (f : FinalDoc) :
    0 ≤ specCoverage f ∧ specCoverage f ≤ 100 := by
  constructor
  · exact le_min (by positivity) (by norm_num)
  · exact min_le_right _ _

lemma counts_le_totalRoutes (f : FinalDoc) :
    hoursCount f ≤ totalRoutesOf f ∧ intervalCount f ≤ totalRoutesOf f := by
  have hlen : (f.districts.flatMap (fun d => d.routes)).length =
      (f.districts.map (fun d => d.routes.length)).sum :=
    List.length_flatMap _ _
  rw [hoursCount, intervalCount, totalRoutesOf, ← hlen]
  exact ⟨List.countP_le_length _, List.countP_le_length _⟩

lemma specCompleteness_bounds (f : FinalDoc) :
    0 ≤ specCompleteness f ∧ specCompleteness f ≤ 100 := by
  rw [specCompleteness]
  by_cases h : totalRoutesOf f = 0
  · rw [if_pos h]
    norm_num
  · rw [if_neg h]
    have htr : (0 : ℚ) < (totalRoutesOf f : ℚ) := by
      exact_mod_cast Nat.pos_of_ne_zero h
    obtain ⟨hH, hI⟩ := counts_le_totalRoutes f
    have hH2 : (hoursCount f : ℚ) ≤ (totalRoutesOf f : ℚ) := by exact_mod_cast hH
    have hI2 : (intervalCount f : ℚ) ≤ (totalRoutesOf f : ℚ) := by exact_mod_cast hI
    constructor
    · positivity
    · have hdiv : ((hoursCount f : ℚ) + (intervalCount f : ℚ)) /
          (2 * (totalRoutesOf f : ℚ)) ≤ 1 :=
        div_le_one_of_le₀ (by linarith) (by positivity)
      calc ((hoursCount f : ℚ) + (intervalCount f : ℚ)) /
            (2 * (totalRoutesOf f : ℚ)) * 100 ≤ (1 : ℚ) * 100 :=
            mul_le_mul_of_nonneg_right hdiv (by norm_num)
        _ = 100 := one_mul _

lemma quality_score_fields (f : FinalDoc) :
    (calculate_quality_score f).district_coverage = round1 (specCoverage f) ∧
    (calculate_quality_score f).info_completeness = round1 (specCompleteness f) ∧
    (calculate_quality_score f).overall_score =
      round1 ((specCoverage f + specCompleteness f) / 2) := by
  have hcomp :
      (if (f.districts.map (fun d => d.routes.length)).sum = 0 then (0 : ℚ)
       else (((f.districts.flatMap (fun d => d.routes)).countP hasHoursB : ℚ) +
          ((f.districts.flatMap (fun d => d.routes)).countP hasIntervalB : ℚ)) /
          (((((f.districts.map (fun d => d.routes.length)).sum : ℕ)) : ℚ) * 2) * 100) =
      specCompleteness f := by
    rw [specCompleteness, totalRoutesOf, hoursCount, intervalCount]
    by_cases h : (f.districts.map (fun d => d.routes.length)).sum = 0
    · rw [if_pos h, if_pos h]
    · rw [if_neg h, if_neg h,
        mul_comm (((((f.districts.map (fun d => d.routes.length)).sum : ℕ)) : ℚ)) 2]
  refine ⟨rfl, ?_, ?_⟩
  · show round1 _ = _
    rw [hcomp]
  · show round1 _ = _
    rw [hcomp]
    rfl

/-- C7 (amended): the scorer computes coverage from the number of district
entries (capped at 100), completeness as the fraction of hours/interval slots
carrying real information (0 with no routes), and overall as their mean, each
rounded to one decimal; the overall score always lies in [0, 100] and is 0 on
the empty document. -/
theorem C7_quality_score_amended :
    (∀ f : FinalDoc,
      (calculate_quality_score f).district_coverage = round1 (specCoverage f) ∧
      (calculate_quality_score f).info_completeness = round1 (specCompleteness f) ∧
      (calculate_quality_score f).overall_score =
        round1 ((specCoverage f + specCompleteness f) / 2) ∧
      0 ≤ (calculate_quality_score f).overall_score ∧
      (calculate_quality_score f).overall_score ≤ 100) ∧
    (calculate_quality_score ⟨"자동 수집", "1.0.0", []⟩).overall_score = 0 := by
  have hmain : ∀ f : FinalDoc,
      (calculate_quality_score f).district_coverage = round1 (specCoverage f) ∧
      (calculate_quality_score f).info_completeness = round1 (specCompleteness f) ∧
      (calculate_quality_score f).overall_score =
        round1 ((specCoverage f + specCompleteness f) / 2) ∧
      0 ≤ (calculate_quality_score f).overall_score ∧
      (calculate_quality_score f).overall_score ≤ 100 := by
    intro f
    obtain ⟨h1, h2, h3⟩ := quality_score_fields f
    have hc1 := specCoverage_bounds f
    have hc2 := specCompleteness_bounds f
    refine ⟨h1, h2, h3, ?_, ?_⟩
    · rw [h3]
      exact round1_nonneg _ (by linarith [hc1.1, hc2.1])
    · rw [h3]
      exact round1_le_100 _ (by linarith [hc1.2, hc2.2])
  refine ⟨hmain, ?_⟩
  have h3 := (hmain ⟨"자동 수집", "1.0.0", []⟩).2.2.1
  rw [h3]
  have hcov : specCoverage ⟨"자동 수집", "1.0.0", []⟩ = 0 := by
    rw [specCoverage]
    norm_num
  have hcom : specCompleteness ⟨"자동 수집", "1.0.0", []⟩ = 0 := by
    simp [specCompleteness, totalRoutesOf]
  rw [hcov, hcom]
  rw [show ((0 : ℚ) + 0) / 2 = 0 by norm_num]
  rw [round1_ofInt 0 0 (by norm_num)]
  norm_num

/-! ## SchemaEmitter membership (C9, C10) -/

lemma mem_insertD (x y : FinalDistrict) (l : List FinalDistrict) :
    x ∈ insertD y l ↔ x = y ∨ x ∈ l := by
  induction l with
  | nil => simp [insertD]
  | cons z zs ih =>
    rw [insertD]
    by_cases h : y.district < z.district
    · rw [if_pos h]
      simp
    · rw [if_neg h]
      rw [List.mem_cons, ih, List.mem_cons]
      tauto

lemma mem_sortD (x : FinalDistrict) (l : List FinalDistrict) :
    x ∈ sortD l ↔ x ∈ l := by
  rw [sortD]
  suffices h : ∀ (acc : List FinalDistrict),
      x ∈ l.foldl (fun acc y => insertD y acc) acc ↔ x ∈ acc ∨ x ∈ l by
    simpa using h []
  induction l with
  | nil => intro acc; simp
  | cons y ys ih =>
    intro acc
    rw [List.foldl_cons, ih, mem_insertD, List.mem_cons]
    tauto

lemma mem_generate_final_json (doc : Doc) (fd : FinalDistrict)
    (hfd : fd ∈ (generate_final_json doc).districts) :
    ∃ dd ∈ doc.districts, dd.routes ≠ [] ∧
      fd = ⟨dd.district, dd.routes.map (emitRoute dd.district)⟩ := by
  rw [generate_final_json] at hfd
  simp only at hfd
  rw [mem_sortD] at hfd
  rcases List.mem_filterMap.mp hfd with ⟨dd, hmem, hF⟩
  by_cases h : (dd.routes.map (emitRoute dd.district)).isEmpty
  · rw [if_pos h] at hF
    exact absurd hF (by simp)
  · rw [if_neg h] at hF
    refine ⟨dd, hmem, ?_, (Option.some_injective _ hF).symm⟩
    intro hnil
    rw [hnil] at h
    exact h (by simp)

def routeC9 : Route := ⟨.val "노선D", .null, .null, []⟩

/-- C9: counterexample. When the hours/interval key is present with a null
value (as the geocoding stage always produces for missing schedule facts),
the emitter's dict.get default does not fire and the canonical output carries
null, not the "정보 없음" sentinel. -/
theorem C9_null_passthrough_counterexample :
    routeC9.hours = JField.null ∧
    (emitRoute "강남구" routeC9).hours = none ∧
    (emitRoute "강남구" routeC9).hours ≠ some sentinelNoInfo ∧
    (generate_final_json ⟨[⟨"강남구", [routeC9]⟩]⟩).districts =
      [⟨"강남구", [⟨some "노선D", none, none, []⟩]⟩] := by
  refine ⟨rfl, rfl, by decide, by decide⟩

/-- C9 (amended): every route in the canonical output is the emitRoute image
of an input route; the "정보 없음" sentinel is emitted exactly when the hours
(resp. interval) KEY is absent, and the emitted field is null exactly when the
key was present with a null value. -/
theorem C9_sentinel_amended (doc : Doc) (fd : FinalDistrict) (fr : FinalRoute)
    (hfd : fd ∈ (generate_final_json doc).districts) (hfr : fr ∈ fd.routes) :
    ∃ dd ∈ doc.districts, ∃ r ∈ dd.routes, fr = emitRoute dd.district r ∧
      (r.hours = .absent → fr.hours = some sentinelNoInfo) ∧
      (r.interval = .absent → fr.interval = some sentinelNoInfo) ∧
      (fr.hours = none ↔ r.hours = .null) ∧
      (fr.interval = none ↔ r.interval = .null) := by
  rcases mem_generate_final_json doc fd hfd with ⟨dd, hmem, _, hfdeq⟩
  rw [hfdeq] at hfr
  simp only at hfr
  rcases List.mem_map.mp hfr with ⟨r, hr, hremit⟩
  refine ⟨dd, hmem, r, hr, hremit.symm, ?_, ?_, ?_, ?_⟩
  · intro h
    rw [← hremit]
    simp [emitRoute, h, JField.getD]
  · intro h
    rw [← hremit]
    simp [emitRoute, h, JField.getD]
  · rw [← hremit]
    simp only [emitRoute]
    cases r.hours <;> simp [JField.getD]
  · rw [← hremit]
    simp only [emitRoute]
    cases r.interval <;> simp [JField.getD]

def docC9w : Doc := ⟨[⟨"서초구", [⟨.val "노선E", .absent, .absent, []⟩]⟩]⟩

/-- Witness for C9_sentinel_amended at a concrete document whose route lacks
the hours and interval keys entirely. -/
theorem C9_sentinel_amended_witness :
    ∃ dd ∈ docC9w.districts, ∃ r ∈ dd.routes,
      (⟨some "노선E", some sentinelNoInfo, some sentinelNoInfo, []⟩ : FinalRoute) =
        emitRoute dd.district r ∧
      (r.hours = .absent →
        (⟨some "노선E", some sentinelNoInfo, some sentinelNoInfo, []⟩ : FinalRoute).hours =
          some sentinelNoInfo) ∧
      (r.interval = .absent →
        (⟨some "노선E", some sentinelNoInfo, some sentinelNoInfo, []⟩ : FinalRoute).interval =
          some sentinelNoInfo) ∧
      ((⟨some "노선E", some sentinelNoInfo, some sentinelNoInfo, []⟩ : FinalRoute).hours =
          none ↔ r.hours = .null) ∧
      ((⟨some "노선E", some sentinelNoInfo, some sentinelNoInfo, []⟩ : FinalRoute).interval =
          none ↔ r.interval = .null) :=
  C9_sentinel_amended docC9w
    ⟨"서초구", [⟨some "노선E", some sentinelNoInfo, some sentinelNoInfo, []⟩]⟩
    ⟨some "노선E", some sentinelNoInfo, some sentinelNoInfo, []⟩
    (by decide) (by decide)

/-! ## Pipeline output invariant (C10) -/

lemma pair_foldl_append {α : Type} (g : α → List String × List String)
    (l : List α) :
    ∀ e w : List String,
      l.foldl (fun acc x => (acc.1 ++ (g x).1, acc.2 ++ (g x).2)) (e, w) =
      (e ++ l.flatMap (fun x => (g x).1), w ++ l.flatMap (fun x => (g x).2)) := by
  induction l with
  | nil => intro e w; simp
  | cons x xs ih =>
    intro e w
    rw [List.foldl_cons]
    rw [ih]
    simp [List.flatMap_cons, List.append_assoc]

lemma validate_data_errors_flat (doc : Doc) (h : doc.districts.isEmpty = false) :
    (validate_data doc).errors =
      doc.districts.flatMap (fun dd => (validate_district dd).1) := by
  rw [validate_data, if_neg (by simp [h])]
  simp only
  rw [pair_foldl_append (fun dd => validate_district dd) doc.districts [] []]
  simp

lemma validate_district_errors_flat (dd : DistrictEntry)
    (h : dd.district.isEmpty = false) :
    (validate_district dd).1 =
      dd.routes.flatMap (fun r => (validate_route r dd.district).1) := by
  rw [validate_district, if_neg (by simp [h])]
  simp only
  rw [pair_foldl_append (fun r => validate_route r dd.district) dd.routes []]
  simp

lemma validate_stop_nil_keep (s : Stop) (rname : String)
    (h : validate_stop s rname = []) : specKeepStop s = true := by
  obtain ⟨nm, lat, lng⟩ := s
  cases lat with
  | none => simp [validate_stop] at h
  | some la =>
    cases lng with
    | none => simp [validate_stop] at h
    | some ln =>
      cases la with
      | junk t => simp [validate_stop, validate_coordinates] at h
      | num a =>
        cases ln with
        | junk t => simp [validate_stop, validate_coordinates] at h
        | num b =>
          simp only [validate_stop, validate_coordinates] at h
          by_cases h1 : a < minLatQ ∨ maxLatQ < a
          · rw [if_pos h1] at h
            simp at h
          · rw [if_neg h1] at h
            by_cases h2 : b < minLngQ ∨ maxLngQ < b
            · rw [if_pos h2] at h
              simp at h
            · have h1a := not_or.mp h1
              have h2a := not_or.mp h2
              simp only [specKeepStop]
              exact decide_eq_true
                ⟨not_lt.mp h1a.1, not_lt.mp h1a.2, not_lt.mp h2a.1, not_lt.mp h2a.2⟩

lemma valid_doc_stops_keep (doc : Doc) (hv : (validate_data doc).valid = true) :
    ∀ dd ∈ doc.districts, ∀ r ∈ dd.routes, ∀ s ∈ r.stops,
      specKeepStop s = true := by
  intro dd hdd r hr s hs
  have hne : doc.districts.isEmpty = false := by
    by_contra hcon
    have : doc.districts.isEmpty = true := by
      cases hde : doc.districts.isEmpty
      · exact absurd hde hcon
      · rfl
    rw [validate_data, if_pos this] at hv
    simp at hv
  have herr : (validate_data doc).errors = [] := by
    rw [validate_data, if_neg (by simp [hne])] at hv ⊢
    simp only at hv ⊢
    exact List.isEmpty_iff.mp hv
  rw [validate_data_errors_flat doc hne] at herr
  have hdistr : (validate_district dd).1 = [] := by
    rcases List.flatMap_eq_nil_iff.mp herr with h
    exact h dd hdd
  have hdne : dd.district.isEmpty = false := by
    cases hde : dd.district.isEmpty
    · rfl
    · rw [validate_district, if_pos (by simp [hde])] at hdistr
      simp at hdistr
  rw [validate_district_errors_flat dd hdne] at hdistr
  have hroute : (validate_route r dd.district).1 = [] :=
    List.flatMap_eq_nil_iff.mp hdistr r hr
  simp only [validate_route] at hroute
  rcases List.append_eq_nil.mp hroute with ⟨_, hstops⟩
  have hstop : validate_stop s (r.name.disp "이름 없음") = [] :=
    List.flatMap_eq_nil_iff.mp hstops s hs
  exact validate_stop_nil_keep s _ hstop

lemma mem_fix_routes (doc : Doc) (dd' : DistrictEntry)
    (hdd : dd' ∈ (fix_common_issues doc).districts) :
    ∀ r' ∈ dd'.routes,
      (∀ s ∈ r'.stops, keepStopCode s = true) ∧ 2 ≤ r'.stops.length := by
  rcases List.mem_filterMap.mp hdd with ⟨dd, _, hF⟩
  by_cases hrs : (dd.routes.filterMap (fun r =>
      if 2 ≤ (r.stops.filter keepStopCode).length
      then some { r with stops := r.stops.filter keepStopCode } else none)).isEmpty
  · rw [if_pos hrs] at hF
    exact absurd hF (by simp)
  · rw [if_neg hrs] at hF
    have hdd' : dd' = { dd with routes := dd.routes.filterMap (fun r =>
        if 2 ≤ (r.stops.filter keepStopCode).length
        then some { r with stops := r.stops.filter keepStopCode } else none) } :=
      (Option.some_injective _ hF).symm
    intro r' hr'
    rw [hdd'] at hr'
    simp only at hr'
    rcases List.mem_filterMap.mp hr' with ⟨r, _, hG⟩
    by_cases hlen : 2 ≤ (r.stops.filter keepStopCode).length
    · rw [if_pos hlen] at hG
      have hr'eq : r' = { r with stops := r.stops.filter keepStopCode } :=
        (Option.some_injective _ hG).symm
      constructor
      · intro s hsmem
        rw [hr'eq] at hsmem
        exact List.of_mem_filter hsmem
      · rw [hr'eq]
        simpa using hlen
    · rw [if_neg hlen] at hG
      exact absurd hG (by simp)

/-- C10 (amended): every stop in the canonical output has present, numeric,
in-bounds coordinates; and whenever the document failed validation (so the
single auto-repair pass ran), every output route additionally has at least 2
stops.  A document that validates on the first pass can carry routes with
fewer than 2 stops into the canonical output. -/
theorem C10_output_invariant_amended (doc : Doc) (fd : FinalDistrict)
    (fr : FinalRoute) (s : Stop)
    (hfd : fd ∈ (pipelineRun doc).districts) (hfr : fr ∈ fd.routes)
    (hs : s ∈ fr.stops) :
    specKeepStop s = true ∧
    ((validate_data doc).valid = false → 2 ≤ fr.stops.length) := by
  rw [pipelineRun] at hfd
  cases hv : (validate_data doc).valid with
  | true =>
    rw [hv] at hfd
    simp only [if_true] at hfd
    rcases mem_generate_final_json doc fd hfd with ⟨dd, hmem, _, hfdeq⟩
    rw [hfdeq] at hfr
    simp only at hfr
    rcases List.mem_map.mp hfr with ⟨r, hr, hremit⟩
    have hstops : fr.stops = r.stops := by
      rw [← hremit]
      rfl
    rw [hstops] at hs
    refine ⟨valid_doc_stops_keep doc hv dd hmem r hr s hs, ?_⟩
    intro hcon
    exact absurd hcon (by simp)
  | false =>
    rw [hv] at hfd
    simp only [Bool.false_eq_true, if_false] at hfd
    rcases mem_generate_final_json _ fd hfd with ⟨dd', hmem, _, hfdeq⟩
    rw [hfdeq] at hfr
    simp only at hfr
    rcases List.mem_map.mp hfr with ⟨r', hr', hremit⟩
    have hstops : fr.stops = r'.stops := by
      rw [← hremit]
      rfl
    obtain ⟨hkeep, hlen⟩ := mem_fix_routes doc dd' hmem r' hr'
    rw [hstops] at hs ⊢
    refine ⟨?_, fun _ => hlen⟩
    rw [← keepStop_agree]
    exact hkeep s hs

def docC10 : Doc := ⟨[⟨"강남구", [⟨.val "노선F", .absent, .absent, [stopGood1]⟩]⟩]⟩

/-- C10: counterexample. A document that passes validation with a single-stop
route (stop count below 2 is only a warning) reaches the canonical output
with that 1-stop route intact, because auto-repair never runs. -/
theorem C10_single_stop_counterexample :
    (validate_data docC10).valid = true ∧
    (pipelineRun docC10).districts =
      [⟨"강남구", [⟨some "노선F", some sentinelNoInfo, some sentinelNoInfo,
        [stopGood1]⟩]⟩] ∧
    (∃ fd ∈ (pipelineRun docC10).districts, ∃ fr ∈ fd.routes,
      fr.stops.length < 2) := by
  refine ⟨by decide, by decide, ?_⟩
  refine ⟨⟨"강남구", [⟨some "노선F", some sentinelNoInfo, some sentinelNoInfo,
    [stopGood1]⟩]⟩, by decide, ⟨some "노선F", some sentinelNoInfo,
    some sentinelNoInfo, [stopGood1]⟩, by decide, by decide⟩

def docC10w : Doc :=
  ⟨[⟨"강남구", [⟨.val "노선G", .absent, .absent,
    [stopGood1, stopGood2, stopBusan]⟩]⟩]⟩

/-- Witness for C10_output_invariant_amended at a concrete invalid document
that auto-repair fixes. -/
theorem C10_output_invariant_amended_witness :
    specKeepStop stopGood1 = true ∧
    ((validate_data docC10w).valid = false →
      2 ≤ ([stopGood1, stopGood2] : List Stop).length) :=
  C10_output_invariant_amended docC10w
    ⟨"강남구", [⟨some "노선G", some sentinelNoInfo, some sentinelNoInfo,
      [stopGood1, stopGood2]⟩]⟩
    ⟨some "노선G", some sentinelNoInfo, some sentinelNoInfo,
      [stopGood1, stopGood2]⟩
    stopGood1 (by decide) (by decide) (by decide)
